import Mathlib

/-!
# Verification of the markup-normalization / Markdown pipeline

Shallow embedding of the pure text- and tree-processing core of the
exporter (`src/exporter.py`): the table-cell pseudo-list preprocessor,
the embedded-image reference rewriter, the three Markdown post-processing
passes (`fix_table_column_alignment`, `fix_spacing_between_tables_and_text`,
`clean_existing_toc_and_wip_section`) and the table-of-contents generator
(`generate_toc`).

Python strings are embedded as Lean `String`s; the string primitives the
source uses (`str.strip`, `str.split`, `str.splitlines`, `str.startswith`,
`str.lower`, `'sep'.join`, and the few regular expressions) are modelled
explicitly on the underlying character lists.  Case-folding (`str.lower`,
`re.IGNORECASE`) is modelled by `Char.toLower`, which is faithful on the
ASCII range the source's literals live in.
-/

/-- Whitespace as Python's `str.strip` / regex `\s` see it (ASCII range):
space, tab, newline, carriage return, vertical tab, form feed. -/
def isPySpace (c : Char) : Bool :=
  c = ' ' || c = '\t' || c = '\n' || c = '\r' || c = Char.ofNat 11 || c = Char.ofNat 12

/-- Python `str.strip()` on a character list: drop whitespace from both ends. -/
def trimC (l : List Char) : List Char :=
  ((l.dropWhile isPySpace).reverse.dropWhile isPySpace).reverse

/-- Python `str.lower()` (ASCII-faithful model). -/
def lowerC (l : List Char) : List Char := l.map Char.toLower

/-- Python `str.split(sep)` for a one-character separator: split on every
occurrence, keeping empty pieces (`"".split(c) == [""]`). -/
def splitOnCharC (sep : Char) : List Char → List (List Char)
  | [] => [[]]
  | c :: cs =>
    if c = sep then [] :: splitOnCharC sep cs
    else
      match splitOnCharC sep cs with
      | [] => [[c]]
      | h :: t => (c :: h) :: t

/-- `str.split("\n")` on the character level. -/
def splitNlC : List Char → List (List Char) := splitOnCharC '\n'

/-- Python `str.splitlines()` on the character level (for `'\n'`-separated
text): like splitting on `'\n'`, except that the empty string yields no
lines and a trailing newline does not produce a final empty line. -/
def pySplitlinesC (cs : List Char) : List (List Char) :=
  if cs = [] then []
  else if cs.getLast? = some '\n' then (splitNlC cs).dropLast
  else splitNlC cs

/-- Python `"<sub>" in s` (substring containment). -/
def hasSub : List Char → List Char → Bool
  | pat, [] => pat.isEmpty
  | pat, c :: rest => pat.isPrefixOf (c :: rest) || hasSub pat rest

/-- Python `str.strip()`. -/
def pyStrip (s : String) : String := ⟨trimC s.data⟩

/-- Python `str.lower()`. -/
def pyLower (s : String) : String := ⟨lowerC s.data⟩

/-- Python `str.startswith(pre)`. -/
def pyStartsWith (s pre : String) : Bool := pre.data.isPrefixOf s.data

/-- Python `str.endswith(suf)`. -/
def pyEndsWith (s suf : String) : Bool := suf.data.isSuffixOf s.data

/-- Python `str.split(sep)` for a one-character separator. -/
def pySplitChar (sep : Char) (s : String) : List String :=
  (splitOnCharC sep s.data).map fun l => (⟨l⟩ : String)

/-- Python `str.splitlines()`. -/
def pySplitlines (s : String) : List String :=
  (pySplitlinesC s.data).map fun l => (⟨l⟩ : String)

/-- Python `sep.join(lines)`. -/
def pyJoinWith (sep : String) : List String → String
  | [] => ""
  | [s] => s
  | s :: rest => s ++ sep ++ pyJoinWith sep rest

/-! ## `fix_table_column_alignment` (src/exporter.py lines 55–77) -/

/-- The table-mode entry test of `fix_table_column_alignment`:
`stripped.startswith("|") and stripped.endswith("|")`. -/
def alignIsPipeLine (line : String) : Bool :=
  pyStartsWith (pyStrip line) "|" && pyEndsWith (pyStrip line) "|"

/-- One step of the `inside_table` flag update of
`fix_table_column_alignment`: a start-and-end-pipe line enters table mode;
otherwise a blank line while inside leaves it; otherwise it is unchanged. -/
def alignStep (inside : Bool) (line : String) : Bool :=
  if alignIsPipeLine line then true
  else if inside && (pyStrip line == "") then false
  else inside

/-- The rewrite `fix_table_column_alignment` applies to a line in table
mode: split on `"|"`, strip every part, drop leading and trailing empty
parts, re-join as `'| ' + ' | '.join(parts) + ' |'`. -/
def realignRow (line : String) : String :=
  let parts := (pySplitChar '|' line).map pyStrip
  let parts := parts.dropWhile (· == "")
  let parts := (parts.reverse.dropWhile (· == "")).reverse
  "| " ++ pyJoinWith " | " parts ++ " |"

/-- The loop of `fix_table_column_alignment`, keeping for every line the
`inside_table` flag under which it was emitted (`true` = the line was
classified as a table line and rewritten). -/
def fixTableAnnotated : Bool → List String → List (Bool × String)
  | _, [] => []
  | inside, line :: rest =>
    let inside' := alignStep inside line
    (inside', if inside' then realignRow line else line) :: fixTableAnnotated inside' rest

/-- `fix_table_column_alignment` (src/exporter.py lines 55–77). -/
def fix_table_column_alignment (markdown : String) : String :=
  pyJoinWith "\n" ((fixTableAnnotated false (pySplitChar '\n' markdown)).map Prod.snd)

/-! ## `fix_spacing_between_tables_and_text` (src/exporter.py lines 79–96) -/

/-- The table test of `fix_spacing_between_tables_and_text`:
`line.strip().startswith("|")` (no trailing pipe required). -/
def spacingIsTableLine (line : String) : Bool :=
  pyStartsWith (pyStrip line) "|"

/-- The loop of `fix_spacing_between_tables_and_text`: `output` is the
emitted-lines accumulator, `prev` the `prev_line_was_table` flag. -/
def fixSpacingLoop (output : List String) : List String → Bool → List String
  | [], _ => output
  | line :: rest, prev =>
    if spacingIsTableLine line then
      let output := if !prev && !output.isEmpty
          && (match output.getLast? with | some l => pyStrip l != "" | none => false)
        then output ++ [""] else output
      fixSpacingLoop (output ++ [line]) rest true
    else
      let output := if prev && pyStrip line != "" then output ++ [""] else output
      fixSpacingLoop (output ++ [line]) rest false

/-- `fix_spacing_between_tables_and_text` (src/exporter.py lines 79–96). -/
def fix_spacing_between_tables_and_text (markdown : String) : String :=
  pyJoinWith "\n" (fixSpacingLoop [] (pySplitChar '\n' markdown) false)

/-! ## `generate_toc` (src/exporter.py lines 98–109) -/

/-- Model of `re.match(r'^(#{1,6}) (.*)', line)`: the greedy, backtracking
`#{1,6}` tries six hashes first, then five, and so on; the first count
whose hashes-plus-space is a prefix of the line wins.  Returns the level
(the length of group 1) and the rest of the line (group 2). -/
def headingMatch (line : String) : Option (Nat × String) :=
  ([6, 5, 4, 3, 2, 1].find? fun k =>
      (List.replicate k '#' ++ [' ']).isPrefixOf line.data).map
    fun k => (k, (⟨line.data.drop (k + 1)⟩ : String))

/-- The slug characters kept by `re.sub(r'[^\w\- ]', '', title)`: word
characters (ASCII model: a–z, A–Z, 0–9, underscore), hyphen, space. -/
def keepSlugChar (c : Char) : Bool :=
  (97 ≤ c.toNat && c.toNat ≤ 122) || (65 ≤ c.toNat && c.toNat ≤ 90)
    || (48 ≤ c.toNat && c.toNat ≤ 57) || c = '_' || c = '-' || c = ' '

/-- The slug computation of `generate_toc`:
`re.sub(r'[^\w\- ]', '', title).lower().replace(' ', '-')`. -/
def pySlug (title : String) : String :=
  ⟨(lowerC (title.data.filter keepSlugChar)).map fun c => if c = ' ' then '-' else c⟩

/-- The body of `generate_toc`'s loop for one line: parse the heading
pattern, skip a "table of contents" title, otherwise render
`'  ' * (level - 1) + "* [title](#slug)"`. -/
def tocEntry (line : String) : Option String :=
  match headingMatch line with
  | none => none
  | some (level, rest) =>
    let title := pyStrip rest
    if pyLower title == "table of contents" then none
    else some ((⟨List.replicate (2 * (level - 1)) ' '⟩ : String)
      ++ "* [" ++ title ++ "](#" ++ pySlug title ++ ")")

/-- The accumulation loop of `generate_toc`. -/
def genTocLoop : List String → List String
  | [] => []
  | line :: rest =>
    match tocEntry line with
    | some e => e :: genTocLoop rest
    | none => genTocLoop rest

/-- `generate_toc` (src/exporter.py lines 98–109). -/
def generate_toc (markdown : String) : String :=
  pyJoinWith "\n" (genTocLoop (pySplitlines markdown))

/-! ## `clean_existing_toc_and_wip_section` (src/exporter.py lines 111–128) -/

/-- Model of `re.match(r'^#+ Table of Contents$', line.strip(), re.IGNORECASE)`:
the stripped line must be a nonempty run of `#`, then one space, then
exactly "Table of Contents" up to case. -/
def isTocHeadingLine (line : String) : Bool :=
  let t := (pyStrip line).data
  let hs := t.takeWhile (· = '#')
  !hs.isEmpty && (lowerC (t.drop hs.length) == " table of contents".data)

/-- `line.strip().lower().startswith("work in progress")`. -/
def isWipLine (line : String) : Bool :=
  "work in progress".data.isPrefixOf (lowerC (pyStrip line).data)

/-- `line.strip() == "61falseTable of Contentsnonelisttrue"`. -/
def isArtifactLine (line : String) : Bool :=
  pyStrip line == "61falseTable of Contentsnonelisttrue"

/-- The loop of `clean_existing_toc_and_wip_section`: first the
`inside_toc` flag is cleared when the line is not a `*`- or `"  *"`-led
bullet, then a line still inside the region is dropped, then the heading /
"work in progress" / artifact-literal drops apply, else the line is kept. -/
def cleanLoop : List String → Bool → List String
  | [], _ => []
  | line :: rest, insideToc =>
    let insideToc :=
      if insideToc && !(pyStartsWith line "*") && !(pyStartsWith line "  *")
      then false else insideToc
    if insideToc then cleanLoop rest true
    else if isTocHeadingLine line then cleanLoop rest true
    else if isWipLine line then cleanLoop rest false
    else if isArtifactLine line then cleanLoop rest false
    else line :: cleanLoop rest false

/-- `clean_existing_toc_and_wip_section` (src/exporter.py lines 111–128). -/
def clean_existing_toc_and_wip_section (markdown : String) : String :=
  pyJoinWith "\n" (cleanLoop (pySplitlines markdown) false)

/-! ## `fix_lists_in_table_cells_to_html_list` (src/exporter.py lines 34–53) -/

/-- The content of one table cell (`td`/`th`): either its raw decoded inner
markup, or — after the preprocessor replaced it — a single unordered-list
node holding the texts of its `li` children, in order. -/
inductive CellContent where
  | raw (html : String)
  | ulist (items : List String)
deriving DecidableEq, Repr

/-- Model of one match of the regex `<br\s*/?>` at a position whose `<` has
already been consumed: expects `br`, optional whitespace, an optional `/`,
then `>`; returns the remainder of the input after the match. -/
def brTailAfterMatch : List Char → Option (List Char)
  | a :: b :: rest =>
    if a = 'b' ∧ b = 'r' then
      let t := rest.dropWhile isPySpace
      if t.head? = some '/' then
        (if t.tail.head? = some '>' then some t.tail.tail else none)
      else if t.head? = some '>' then some t.tail else none
    else none
  | _ => none

theorem brTailAfterMatch_length {l r : List Char}
    (h : brTailAfterMatch l = some r) : r.length ≤ l.length := by
  match l, h with
  | a :: b :: rest, h =>
    have hdw : (rest.dropWhile isPySpace).length ≤ rest.length :=
      (List.dropWhile_sublist _).length_le
    have htail : ∀ x : List Char, x.tail.length ≤ x.length := by
      intro x; cases x <;> simp
    simp only [brTailAfterMatch] at h
    split_ifs at h <;> simp only [Option.some.injEq] at h <;> subst h <;>
      simp only [List.length_cons] <;>
      calc _ ≤ (rest.dropWhile isPySpace).length := by
              first
                | exact le_trans (htail _) (htail _)
                | exact htail _
           _ ≤ rest.length + 1 + 1 := by omega

set_option linter.unusedVariables false in
/-- Model of `re.split(r'<br\s*/?>', html)`: left-to-right scan, splitting
at every non-overlapping match of the pattern.  The named match
hypothesis `hm` is used only by the termination argument. -/
def splitBrGo (acc : List Char) : List Char → List (List Char)
  | [] => [acc.reverse]
  | c :: rest =>
    if c = '<' then
      match hm : brTailAfterMatch rest with
      | some r => acc.reverse :: splitBrGo [] r
      | none => splitBrGo (c :: acc) rest
    else splitBrGo (c :: acc) rest
termination_by l => l.length
decreasing_by
  · simp_wf; have := brTailAfterMatch_length hm; omega
  all_goals simp

/-- `re.split(r'<br\s*/?>', html)` as a list of `String` pieces. -/
def pySplitBr (html : String) : List String :=
  (splitBrGo [] html.data).map fun l => (⟨l⟩ : String)

/-- The cell-replacement condition of `fix_lists_in_table_cells_to_html_list`:
`any(html.strip().startswith(c) for c in ["*", "-", "•"]) or "<br" in html`. -/
def cellCond (html : String) : Bool :=
  (["*", "-", "•"].any fun c => pyStartsWith (pyStrip html) c)
    || hasSub "<br".data html.data

/-- `re.sub(r'^[*\-•]\s*', '', line)`: remove one leading bullet glyph, if
present, together with the whitespace following it. -/
def stripBulletPrefix (line : String) : String :=
  match line.data with
  | c :: rest =>
    if c = '*' || c = '-' || c = '•' then ⟨rest.dropWhile isPySpace⟩ else line
  | [] => line

/-- The per-cell body of `fix_lists_in_table_cells_to_html_list`
(src/exporter.py lines 34–53), acting on a cell's decoded inner markup:
when the condition holds, split on `<br>` boundaries, keep the stripped
lines that start with a bullet glyph as list items (glyph and following
whitespace removed), and if any item was found, replace the cell's whole
content by one unordered list of those items. -/
def fix_lists_in_table_cell (cell : CellContent) : CellContent :=
  match cell with
  | .raw html =>
    if cellCond html then
      let lines := pySplitBr html
      let items := lines.filterMap fun line =>
        let line := pyStrip line
        if pyStartsWith line "*" || pyStartsWith line "-" || pyStartsWith line "•"
        then some (stripBulletPrefix line) else none
      if items.isEmpty then .raw html else .ulist items
    else .raw html
  | c => c

/-! ## The `ac:image` rewrite loop (src/exporter.py lines 185–193) -/

/-- A node of the parsed markup tree (the BeautifulSoup document): a text
node, or an element with a tag name, attributes, and ordered children. -/
inductive SoupNode where
  | text (s : String)
  | elem (tag : String) (attrs : List (String × String)) (children : List SoupNode)

/-- Attribute lookup (`node["name"]` / `node.has_attr("name")`). -/
def attrVal (attrs : List (String × String)) (name : String) : Option String :=
  (attrs.find? fun p => p.1 == name).map Prod.snd

/-- `img.find("ri:attachment")`: the first element with that tag in a
depth-first, document-order search of a forest; returns its attributes. -/
def findRiAttachment : List SoupNode → Option (List (String × String))
  | [] => none
  | .text _ :: rest => findRiAttachment rest
  | .elem tag attrs children :: rest =>
    if tag = "ri:attachment" then some attrs
    else
      match findRiAttachment children with
      | some r => some r
      | none => findRiAttachment rest

/-- The Attachment Map: original attachment filename to sanitized local
filename (`attachment_map.get`, first binding wins). -/
def mapGet (amap : List (String × String)) (key : String) : Option String :=
  (amap.find? fun p => p.1 == key).map Prod.snd

mutual
/-- The `ac:image` rewrite loop (src/exporter.py lines 185–193) as a
top-down tree rewrite: an `ac:image` element whose `ri:attachment`
descendant carries an `ri:filename` found in the Attachment Map with a
non-empty sanitized filename (Python's `if filename:` is false both for a
missing key and for an empty string) is replaced by
`<img src="./attachments/<page_id>/<filename>">`; every other node is
kept, its children rewritten in place. -/
def rewriteImages (pageId : String) (amap : List (String × String)) : SoupNode → SoupNode
  | .text s => .text s
  | .elem tag attrs children =>
    if tag = "ac:image" then
      match findRiAttachment children with
      | some riAttrs =>
        match attrVal riAttrs "ri:filename" with
        | some original =>
          match mapGet amap original with
          | some filename =>
            if filename ≠ "" then
              .elem "img" [("src", "./attachments/" ++ pageId ++ "/" ++ filename)] []
            else .elem tag attrs (rewriteImagesList pageId amap children)
          | none => .elem tag attrs (rewriteImagesList pageId amap children)
        | none => .elem tag attrs (rewriteImagesList pageId amap children)
      | none => .elem tag attrs (rewriteImagesList pageId amap children)
    else .elem tag attrs (rewriteImagesList pageId amap children)

/-- The rewrite applied to each child in order. -/
def rewriteImagesList (pageId : String) (amap : List (String × String)) :
    List SoupNode → List SoupNode
  | [] => []
  | n :: rest => rewriteImages pageId amap n :: rewriteImagesList pageId amap rest
end

mutual
/-- Modelled from the spec: the Markup-to-Markdown Converter (§4.3), the
external `markdownify` call, which is not part of `src/`.  Per the spec it
"never raises a fatal error for a single malformed node"; unsupported node
types are "rendered as their nearest textual approximation or dropped".
The result type is `Except` so that "raises no error" is statable: a text
node renders as its text, an `img` element as a Markdown image, and any
unrecognized element as the concatenation of its children's renderings. -/
def mdRender : SoupNode → Except String String
  | .text s => .ok s
  | .elem tag attrs children =>
    if tag = "img" then .ok ("![](" ++ ((attrVal attrs "src").getD "") ++ ")")
    else
      match mdRenderList children with
      | .ok parts => .ok (String.join parts)
      | .error e => .error e

/-- Modelled from the spec: rendering of an ordered list of children. -/
def mdRenderList : List SoupNode → Except String (List String)
  | [] => .ok []
  | n :: rest =>
    match mdRender n, mdRenderList rest with
    | .ok s, .ok l => .ok (s :: l)
    | .error e, _ => .error e
    | _, .error e => .error e
end

/-! ## Specification-side definitions

The explicit claims of §4.4, §4.5 and §8–§9 of the specification describe
the post-processing passes as small two-state line machines and the TOC
generator as a per-line pattern.  The following definitions transcribe the
specification's wording (as amended where a claim fails on the code); the
claim theorems below compare them with the source-translated definitions
above. -/

/-- Spec §4.5 / claim C8: the anchor slug obtained by lowercasing the
title, stripping every character that is not a word character, hyphen, or
space, then replacing spaces with hyphens. -/
def specSlug (title : String) : String :=
  ⟨((lowerC title.data).filter keepSlugChar).map fun c => if c = ' ' then '-' else c⟩

/-- Spec §4.5 / claim C9: a heading line is 1–6 `#` characters, then one
space, then the title text; returns the level and the title. -/
def specHeading (line : String) : Option (Nat × String) :=
  let hs := line.data.takeWhile (· = '#')
  if 1 ≤ hs.length ∧ hs.length ≤ 6 ∧ (line.data.drop hs.length).head? = some ' '
  then some (hs.length, (⟨line.data.drop (hs.length + 1)⟩ : String))
  else none

/-- Spec §4.5 / claim C9: the TOC entry for one line — an entry per
heading line, indented by two spaces times (level − 1), formatted
`<indent>* [<title>](#<slug>)`, and no entry when the (stripped) title is
"Table of Contents" compared case-insensitively. -/
def specTocEntry (line : String) : Option String :=
  match specHeading line with
  | none => none
  | some (level, rest) =>
    let title := pyStrip rest
    if pyLower title == "table of contents" then none
    else some ((⟨List.replicate (2 * (level - 1)) ' '⟩ : String)
      ++ "* [" ++ title ++ "](#" ++ specSlug title ++ ")")

/-- The two states of the table-realignment scanner of spec §4.4(a)/§9. -/
inductive TblState where
  | outside
  | inside
deriving DecidableEq

/-- Claim C4 (amended): table mode is entered by a line whose trimmed form
both starts and ends with `|`, and exited only by a blank line. -/
def specTblNext : TblState → String → TblState
  | .outside, line =>
    if pyStartsWith (pyStrip line) "|" && pyEndsWith (pyStrip line) "|"
    then .inside else .outside
  | .inside, line => if pyStrip line == "" then .outside else .inside

/-- Claim C4 (amended): the cell normalization applied to every line in
table mode — split on `|`, trim each cell, drop the leading and trailing
empty cells, re-join as `| cell | cell | ... |`. -/
def specRealignRow (line : String) : String :=
  let cells := List.rdropWhile (· == "")
    (((pySplitChar '|' line).map pyStrip).dropWhile (· == ""))
  "| " ++ pyJoinWith " | " cells ++ " |"

/-- Claim C4 (amended), as a two-state machine: a line whose step leads to
the inside state is classified as a table line and rewritten by the cell
normalization (in particular, the blank line that exits table mode and
every line outside table mode pass through unchanged). -/
def specRealignLines : TblState → List String → List String
  | _, [] => []
  | st, line :: rest =>
    let st' := specTblNext st line
    (if st' = .inside then specRealignRow line else line) :: specRealignLines st' rest

/-- The table-column-realignment pass as spec §4.4(a) / claim C4 (amended)
describe it. -/
def specTableRealign (markdown : String) : String :=
  pyJoinWith "\n" (specRealignLines .outside (pySplitChar '\n' markdown))

/-- Spec §4.4(b) / claim C5: a line is a table line iff its trimmed form
starts with `|` (the trailing `|` is not required). -/
def specIsTableStart (line : String) : Bool :=
  match (pyStrip line).data with
  | '|' :: _ => true
  | _ => false

/-- Spec §4.4(b) / claim C5, as a scanner over the input lines: one blank
line is inserted before the first table line of a block when the
previously emitted line (the previous input line) is non-blank, and after
the last table line when the following non-table line is non-blank. -/
def specSpacingLines : Option String → List String → List String
  | _, [] => []
  | prev, line :: rest =>
    let tbl := specIsTableStart line
    let insert : Bool :=
      match prev with
      | none => false
      | some p =>
        if tbl then !specIsTableStart p && pyStrip p != ""
        else specIsTableStart p && pyStrip line != ""
    (if insert then [""] else []) ++ line :: specSpacingLines (some line) rest

/-- The table/prose spacing pass as spec §4.4(b) / claim C5 describe it. -/
def specSpacingPass (markdown : String) : String :=
  pyJoinWith "\n" (specSpacingLines none (pySplitChar '\n' markdown))

/-- Claim C3 (amended), after the leading hashes of the stripped line have
been consumed: skip the remaining hashes, then require one space and
exactly "Table of Contents" case-insensitively. -/
def specTocHeadingTail : List Char → Bool
  | '#' :: rest => specTocHeadingTail rest
  | rest => lowerC rest == " table of contents".data

/-- Claim C3 (amended): a removal region starts exactly at a heading line
of one or more `#` characters whose text, compared case-insensitively, is
exactly "Table of Contents" (the line is compared in stripped form). -/
def specIsTocHeading (line : String) : Bool :=
  match (pyStrip line).data with
  | '#' :: rest => specTocHeadingTail rest
  | _ => false

/-- Claim C3: a line continuing a removal region — a top-level or
two-space-indented bullet item. -/
def specIsBulletLine (line : String) : Bool :=
  match line.data with
  | '*' :: _ => true
  | ' ' :: ' ' :: '*' :: _ => true
  | _ => false

/-- Spec §4.4(c): a line whose trimmed, case-insensitive text starts with
"work in progress". -/
def specIsWip (line : String) : Bool :=
  pyStartsWith (pyLower (pyStrip line)) "work in progress"

/-- Spec §4.4(c): the known malformed-macro placeholder artifact literal. -/
def specIsArtifact (line : String) : Bool :=
  pyStrip line == "61falseTable of Contentsnonelisttrue"

/-- The stale-section removal of spec §4.4(c) / claim C3 (amended) as a
two-state machine: in a removal region, bullet lines are dropped; the
first non-bullet line ends the region and is processed normally; a
"Table of Contents" heading line opens a region and is dropped; work-in-
progress and artifact lines are dropped; every other line is kept. -/
def specCleanLines : Bool → List String → List String
  | _, [] => []
  | inRegion, line :: rest =>
    if inRegion && specIsBulletLine line then specCleanLines true rest
    else if specIsTocHeading line then specCleanLines true rest
    else if specIsWip line || specIsArtifact line then specCleanLines false rest
    else line :: specCleanLines false rest

/-- The stale-section removal pass as spec §4.4(c) / claim C3 (amended)
describe it. -/
def specCleanPass (markdown : String) : String :=
  pyJoinWith "\n" (specCleanLines false (pySplitlines markdown))

/-- "Doubled pipes": two adjacent `|` characters somewhere in the line. -/
def hasDoublePipe : List Char → Bool
  | a :: b :: rest => (a = '|' && b = '|') || hasDoublePipe (b :: rest)
  | _ => false

/-! ## Supporting lemmas: slug and heading matching -/

theorem toLower_toNat_of_upper {c : Char} (h1 : 65 ≤ c.toNat) (h2 : c.toNat ≤ 90) :
    (Char.toLower c).toNat = c.toNat + 32 := by
  have hv : (c.toNat + 32).isValidChar := Or.inl (by omega)
  simp only [Char.toLower]
  rw [if_pos (by omega)]
  simp only [Char.ofNat]
  rw [dif_pos hv]
  simp [Char.ofNatAux, Char.toNat, UInt32.toNat, BitVec.toNat_ofNatLt]

theorem toLower_eq_self_of_not_upper {c : Char} (h : ¬(65 ≤ c.toNat ∧ c.toNat ≤ 90)) :
    Char.toLower c = c := by
  simp only [Char.toLower]
  exact if_neg h

theorem keepSlugChar_toLower (c : Char) :
    keepSlugChar (Char.toLower c) = keepSlugChar c := by
  by_cases h : 65 ≤ c.toNat ∧ c.toNat ≤ 90
  · have htn := toLower_toNat_of_upper h.1 h.2
    have hL : keepSlugChar (Char.toLower c) = true := by
      simp [keepSlugChar, htn]; omega
    have hR : keepSlugChar c = true := by
      simp [keepSlugChar]; omega
    rw [hL, hR]
  · rw [toLower_eq_self_of_not_upper h]

/-- Stripping non-slug characters commutes with lowercasing: the code
strips then lowercases, the spec lowercases then strips, with the same
result. -/
theorem pySlug_eq_specSlug (title : String) : pySlug title = specSlug title := by
  apply congrArg String.mk
  simp only [lowerC]
  rw [List.filter_map]
  have : title.data.filter (keepSlugChar ∘ Char.toLower) = title.data.filter keepSlugChar :=
    List.filter_congr fun c _ => keepSlugChar_toLower c
  rw [this]

theorem replicate_hash_prefix (k : Nat) (l : List Char) :
    (List.replicate k '#' ++ [' ']).isPrefixOf l = true ↔
      (l.takeWhile (· = '#')).length = k ∧ (l.drop k).head? = some ' ' := by
  induction k generalizing l with
  | zero =>
    cases l with
    | nil => simp [List.isPrefixOf]
    | cons c t =>
      by_cases hc : c = ' '
      · subst hc
        simp [List.isPrefixOf, List.takeWhile_cons]
      · simp only [List.replicate_zero, List.nil_append, List.isPrefixOf,
          List.takeWhile_cons, List.drop_zero, List.head?_cons,
          Option.some.injEq, Bool.and_eq_true, beq_iff_eq]
        constructor
        · rintro ⟨h, -⟩
          exact absurd h.symm hc
        · rintro ⟨-, h⟩
          exact absurd h hc
  | succ k ih =>
    cases l with
    | nil => simp [List.isPrefixOf]
    | cons c t =>
      by_cases hc : c = '#'
      · subst hc
        simp only [List.replicate_succ, List.cons_append, List.isPrefixOf,
          List.takeWhile_cons, decide_eq_true_eq, if_pos rfl, List.length_cons,
          List.drop_succ_cons, Bool.and_eq_true, beq_iff_eq, beq_self_eq_true,
          true_and]
        rw [if_pos (by simp)]
        simp only [List.length_cons]
        constructor
        · intro h
          rcases (ih t).mp h with ⟨h1, h2⟩
          exact ⟨by omega, h2⟩
        · rintro ⟨h1, h2⟩
          exact (ih t).mpr ⟨by omega, h2⟩
      · simp only [List.replicate_succ, List.cons_append, List.isPrefixOf,
          List.takeWhile_cons, Bool.and_eq_true, beq_iff_eq]
        rw [if_neg (by simpa using hc)]
        simp only [List.length_nil]
        constructor
        · rintro ⟨h, -⟩
          first | exact absurd h hc | exact absurd h.symm hc
        · rintro ⟨h, -⟩; omega

/-- The backtracking model of `re.match(r'^(#{1,6}) (.*)', line)` agrees
with the specification's description: 1–6 leading `#` characters, then one
space, then the title. -/
theorem headingMatch_eq_specHeading (line : String) :
    headingMatch line = specHeading line := by
  have E1 := replicate_hash_prefix 1 line.data
  have E2 := replicate_hash_prefix 2 line.data
  have E3 := replicate_hash_prefix 3 line.data
  have E4 := replicate_hash_prefix 4 line.data
  have E5 := replicate_hash_prefix 5 line.data
  have E6 := replicate_hash_prefix 6 line.data
  simp only [headingMatch, specHeading, List.find?]
  rcases h6 : (List.replicate 6 '#' ++ [' ']).isPrefixOf line.data with _ | _
  case true =>
    obtain ⟨hn, hS⟩ := E6.mp h6
    rw [if_pos ⟨by omega, by omega, by rw [hn]; exact hS⟩, hn]
    rfl
  rcases h5 : (List.replicate 5 '#' ++ [' ']).isPrefixOf line.data with _ | _
  case true =>
    obtain ⟨hn, hS⟩ := E5.mp h5
    rw [if_pos ⟨by omega, by omega, by rw [hn]; exact hS⟩, hn]
    rfl
  rcases h4 : (List.replicate 4 '#' ++ [' ']).isPrefixOf line.data with _ | _
  case true =>
    obtain ⟨hn, hS⟩ := E4.mp h4
    rw [if_pos ⟨by omega, by omega, by rw [hn]; exact hS⟩, hn]
    rfl
  rcases h3 : (List.replicate 3 '#' ++ [' ']).isPrefixOf line.data with _ | _
  case true =>
    obtain ⟨hn, hS⟩ := E3.mp h3
    rw [if_pos ⟨by omega, by omega, by rw [hn]; exact hS⟩, hn]
    rfl
  rcases h2 : (List.replicate 2 '#' ++ [' ']).isPrefixOf line.data with _ | _
  case true =>
    obtain ⟨hn, hS⟩ := E2.mp h2
    rw [if_pos ⟨by omega, by omega, by rw [hn]; exact hS⟩, hn]
    rfl
  rcases h1 : (List.replicate 1 '#' ++ [' ']).isPrefixOf line.data with _ | _
  case true =>
    obtain ⟨hn, hS⟩ := E1.mp h1
    rw [if_pos ⟨by omega, by omega, by rw [hn]; exact hS⟩, hn]
    rfl
  rw [if_neg]
  · rfl
  rintro ⟨hge, hle, hS⟩
  have hk : (line.data.takeWhile (· = '#')).length = 1
      ∨ (line.data.takeWhile (· = '#')).length = 2
      ∨ (line.data.takeWhile (· = '#')).length = 3
      ∨ (line.data.takeWhile (· = '#')).length = 4
      ∨ (line.data.takeWhile (· = '#')).length = 5
      ∨ (line.data.takeWhile (· = '#')).length = 6 := by omega
  rcases hk with hk | hk | hk | hk | hk | hk <;> rw [hk] at hS
  · have hcon := E1.mpr ⟨hk, hS⟩
    rw [h1] at hcon; exact absurd hcon (by simp)
  · have hcon := E2.mpr ⟨hk, hS⟩
    rw [h2] at hcon; exact absurd hcon (by simp)
  · have hcon := E3.mpr ⟨hk, hS⟩
    rw [h3] at hcon; exact absurd hcon (by simp)
  · have hcon := E4.mpr ⟨hk, hS⟩
    rw [h4] at hcon; exact absurd hcon (by simp)
  · have hcon := E5.mpr ⟨hk, hS⟩
    rw [h5] at hcon; exact absurd hcon (by simp)
  · have hcon := E6.mpr ⟨hk, hS⟩
    rw [h6] at hcon; exact absurd hcon (by simp)

theorem genTocLoop_eq_filterMap (ls : List String) :
    genTocLoop ls = ls.filterMap tocEntry := by
  induction ls with
  | nil => rfl
  | cons l rest ih =>
    simp only [genTocLoop, List.filterMap_cons]
    cases tocEntry l <;> simp [ih]

theorem tocEntry_eq_specTocEntry (line : String) :
    tocEntry line = specTocEntry line := by
  unfold tocEntry specTocEntry
  rw [headingMatch_eq_specHeading]
  cases specHeading line with
  | none => rfl
  | some p => simp only [pySlug_eq_specSlug]

/-- C8: for every heading title, the slug `generate_toc` computes equals
the specification's slug (lowercase the title, strip every character that
is not a word character, hyphen, or space, then replace spaces with
hyphens); in particular "My Section 1!" yields "my-section-1". -/
theorem claimC8_slug_determinism :
    (∀ title : String, pySlug title = specSlug title) ∧
      pySlug "My Section 1!" = "my-section-1" :=
  ⟨pySlug_eq_specSlug, by decide⟩

/-- C9: `generate_toc` emits exactly one entry per heading line (1–6 `#`
then one space then title), indented two spaces per level above 1, in
document order, without deduplication, and no entry for a heading titled
"Table of Contents" case-insensitively: it equals the per-line
`specTocEntry` filter-map over the document's lines. -/
theorem claimC9_toc_generation (markdown : String) :
    generate_toc markdown = pyJoinWith "\n" ((pySplitlines markdown).filterMap specTocEntry) := by
  unfold generate_toc
  rw [genTocLoop_eq_filterMap]
  have : tocEntry = specTocEntry := funext tocEntry_eq_specTocEntry
  rw [this]

/-! ## Table realignment: machine equivalence (C4) -/

theorem blank_not_pipeLine {line : String} (h : pyStrip line = "") :
    alignIsPipeLine line = false := by
  have hd : (pyStrip line).data = [] := by rw [h]
  simp [alignIsPipeLine, pyStartsWith, hd, List.isPrefixOf]

theorem specTblNext_eq (inside : Bool) (line : String) :
    specTblNext (if inside then TblState.inside else TblState.outside) line
      = if alignStep inside line then TblState.inside else TblState.outside := by
  cases inside with
  | false =>
    show specTblNext TblState.outside line = _
    rw [show specTblNext TblState.outside line
        = (if alignIsPipeLine line then TblState.inside else TblState.outside) from rfl]
    unfold alignStep
    by_cases hp : alignIsPipeLine line
    · simp [hp]
    · simp [hp]
  | true =>
    show specTblNext TblState.inside line = _
    rw [show specTblNext TblState.inside line
        = (if pyStrip line == "" then TblState.outside else TblState.inside) from rfl]
    unfold alignStep
    by_cases hb : pyStrip line = ""
    · have hp := blank_not_pipeLine hb
      simp [hb, hp]
    · by_cases hp : alignIsPipeLine line
      · simp [hb, hp]
      · simp [hb, hp]

theorem specRealignRow_eq (line : String) : specRealignRow line = realignRow line := by
  simp [specRealignRow, realignRow, List.rdropWhile]

theorem specRealignLines_eq (ls : List String) : ∀ inside : Bool,
    (fixTableAnnotated inside ls).map Prod.snd
      = specRealignLines (if inside then TblState.inside else TblState.outside) ls := by
  induction ls with
  | nil => intro inside; rfl
  | cons line rest ih =>
    intro inside
    simp only [fixTableAnnotated, List.map_cons, specRealignLines]
    rw [specTblNext_eq, ih (alignStep inside line)]
    by_cases h : alignStep inside line = true
    · simp [h, specRealignRow_eq]
    · simp only [Bool.not_eq_true] at h
      simp [h, specRealignRow_eq]

theorem splitOnCharC_of_not_mem {sep : Char} {l : List Char} (h : sep ∉ l) :
    splitOnCharC sep l = [l] := by
  induction l with
  | nil => rfl
  | cons c cs ih =>
    simp only [List.mem_cons, not_or] at h
    simp only [splitOnCharC, if_neg (Ne.symm h.1)]
    rw [ih h.2]

theorem realignRow_no_pipe {line : String} (h : '|' ∉ line.data)
    (hb : pyStrip line ≠ "") : realignRow line = "| " ++ pyStrip line ++ " |" := by
  unfold realignRow pySplitChar
  rw [splitOnCharC_of_not_mem h]
  have : (pyStrip line == "") = false := by simp [hb]
  simp [List.dropWhile, this, pyJoinWith]

/-- C4 (amended): table mode is entered by a line whose trimmed form both
starts and ends with `|` and exited only by a blank line; a non-blank line
inside table mode that does not start and end with `|` remains classified
as a table line and is rewritten by the same cell normalization as any
table line — a single-cell row when the line contains no `|` at all —
while the exiting blank line and all lines outside table mode pass through
unchanged: `fix_table_column_alignment` equals the specification's
two-state machine. -/
theorem claimC4_amended_machine :
    (∀ markdown : String, fix_table_column_alignment markdown = specTableRealign markdown) ∧
    ∀ line : String, '|' ∉ line.data → pyStrip line ≠ "" →
      realignRow line = "| " ++ pyStrip line ++ " |" := by
  constructor
  · intro markdown
    unfold fix_table_column_alignment specTableRealign
    rw [specRealignLines_eq]
    rfl
  · exact fun line h hb => realignRow_no_pipe h hb

/-- C4, as stated, is false: inside table mode, the non-blank line
`"a|b"` (which neither starts nor ends with `|`) is not rewritten as the
single-cell row `"| a|b |"`; the pass splits it on its interior pipe and
produces the two-cell row `"| a | b |"`. -/
theorem claimC4_counterexample :
    fix_table_column_alignment "|x|\na|b" = "| x |\n| a | b |" ∧
      fix_table_column_alignment "|x|\na|b" ≠ "| x |\n| a|b |" := by
  constructor
  · decide
  · decide

/-- Witness for the amended C4 at concrete inputs. -/
theorem claimC4_amended_machine_witness :
    fix_table_column_alignment "| a |\nx\n\ny" = specTableRealign "| a |\nx\n\ny" ∧
      realignRow "stray" = "| stray |" := by
  constructor
  · exact claimC4_amended_machine.1 "| a |\nx\n\ny"
  · have h := claimC4_amended_machine.2 "stray" (by decide) (by decide)
    rw [h]; decide

/-! ## Table/prose spacing: machine equivalence (C5) and frame (C10) -/

theorem specIsTableStart_eq (line : String) :
    specIsTableStart line = spacingIsTableLine line := by
  unfold specIsTableStart spacingIsTableLine pyStartsWith
  split
  · rename_i heq
    rw [heq]
    simp [List.isPrefixOf]
  · rename_i hne
    rcases hd : (pyStrip line).data with _ | ⟨c, t⟩
    · simp [List.isPrefixOf]
    · have hc : c ≠ '|' := by
        intro h
        subst h
        exact hne t (by rw [hd])
      simp [List.isPrefixOf, hc, beq_eq_false_iff_ne, Ne.symm hc]

theorem getLast?_isEmpty_false {α : Type} {l : List α} {a : α}
    (h : l.getLast? = some a) : l.isEmpty = false := by
  cases l with
  | nil => simp at h
  | cons x xs => rfl

theorem specSpacingLines_cons_none (line : String) (rest : List String) :
    specSpacingLines none (line :: rest) = line :: specSpacingLines (some line) rest := rfl

theorem specSpacingLines_cons_some (p line : String) (rest : List String) :
    specSpacingLines (some p) (line :: rest) =
      (if (if specIsTableStart line then !specIsTableStart p && pyStrip p != ""
           else specIsTableStart p && pyStrip line != "") then [""] else ([] : List String))
        ++ line :: specSpacingLines (some line) rest := rfl

theorem fixSpacingLoop_eq_spec :
    ∀ (lines output : List String) (prev : Bool) (prevOpt : Option String),
    (match prevOpt with
     | none => output = [] ∧ prev = false
     | some p => output.getLast? = some p ∧ prev = spacingIsTableLine p) →
    fixSpacingLoop output lines prev = output ++ specSpacingLines prevOpt lines := by
  intro lines
  induction lines with
  | nil =>
    intro output prev prevOpt _
    simp [fixSpacingLoop, specSpacingLines]
  | cons line rest ih =>
    intro output prev prevOpt hinv
    rcases prevOpt with _ | p
    · obtain ⟨ho, hp⟩ := hinv
      subst ho
      subst hp
      rw [specSpacingLines_cons_none]
      by_cases htbl : spacingIsTableLine line
      · have hstep : fixSpacingLoop [] (line :: rest) false
            = fixSpacingLoop ([] ++ [line]) rest true := by
          simp [fixSpacingLoop, htbl]
        rw [hstep, ih ([] ++ [line]) true (some line)
          ⟨by rw [List.getLast?_concat], htbl.symm⟩]
        simp
      · have hstep : fixSpacingLoop [] (line :: rest) false
            = fixSpacingLoop ([] ++ [line]) rest false := by
          simp [fixSpacingLoop, htbl]
        have htbl' : spacingIsTableLine line = false := by
          simpa using htbl
        rw [hstep, ih ([] ++ [line]) false (some line)
          ⟨by rw [List.getLast?_concat], htbl'.symm⟩]
        simp
    · obtain ⟨ho, hp⟩ := hinv
      have hne : output.isEmpty = false := getLast?_isEmpty_false ho
      have hps : specIsTableStart p = prev := by rw [specIsTableStart_eq, ← hp]
      rw [specSpacingLines_cons_some]
      by_cases htbl : spacingIsTableLine line
      · have hsl : specIsTableStart line = true := by rw [specIsTableStart_eq]; exact htbl
        have hstep : fixSpacingLoop output (line :: rest) prev
            = fixSpacingLoop
                ((if !prev && (pyStrip p != "") then output ++ [""] else output) ++ [line])
                rest true := by
          simp only [fixSpacingLoop, htbl, ho, hne, Bool.not_false, Bool.and_true, if_pos]
        have hins : (if specIsTableStart line then (!specIsTableStart p && pyStrip p != "")
            else (specIsTableStart p && pyStrip line != "")) = (!prev && pyStrip p != "") := by
          rw [hsl, hps]
          simp
        rw [hstep, ih _ true (some line) ⟨by rw [List.getLast?_concat], htbl.symm⟩, hins]
        by_cases hc : (!prev && (pyStrip p != "")) = true <;> simp [hc]
      · have hsl : specIsTableStart line = false := by
          rw [specIsTableStart_eq]; simpa using htbl
        have htbl' : spacingIsTableLine line = false := by simpa using htbl
        have hstep : fixSpacingLoop output (line :: rest) prev
            = fixSpacingLoop
                ((if prev && (pyStrip line != "") then output ++ [""] else output) ++ [line])
                rest false := by
          simp [fixSpacingLoop, htbl']
        have hins : (if specIsTableStart line then (!specIsTableStart p && pyStrip p != "")
            else (specIsTableStart p && pyStrip line != "")) = (prev && pyStrip line != "") := by
          rw [hsl, hps]
          simp
        rw [hstep, ih _ false (some line) ⟨by rw [List.getLast?_concat], htbl'.symm⟩, hins]
        by_cases hc : (prev && (pyStrip line != "")) = true <;> simp [hc]

/-- C5: the table/prose spacing pass equals the specification's scanner —
a line is a table line iff its trimmed form starts with `|` (no trailing
`|` required), one blank line is inserted before the first table line of a
block when the previously emitted line is non-blank, and after the last
table line when the following non-table line is non-blank; everything else
is emitted unchanged. -/
theorem claimC5_spacing_machine (markdown : String) :
    fix_spacing_between_tables_and_text markdown = specSpacingPass markdown := by
  unfold fix_spacing_between_tables_and_text specSpacingPass
  rw [fixSpacingLoop_eq_spec (pySplitChar '\n' markdown) [] false none (by constructor <;> rfl)]
  rfl

theorem fixSpacingLoop_frame :
    ∀ (lines output : List String) (prev : Bool),
    ∃ res, fixSpacingLoop output lines prev = output ++ res ∧
      lines.Sublist res ∧ ∀ l ∈ res, l ∈ lines ∨ l = "" := by
  intro lines
  induction lines with
  | nil =>
    intro output prev
    exact ⟨[], by simp [fixSpacingLoop], by simp, by simp⟩
  | cons line rest ih =>
    intro output prev
    by_cases htbl : spacingIsTableLine line
    · set ins : List String := (if !prev && !output.isEmpty
          && (match output.getLast? with | some l => pyStrip l != "" | none => false)
        then [""] else []) with hins
      have hstep : fixSpacingLoop output (line :: rest) prev
          = fixSpacingLoop ((output ++ ins) ++ [line]) rest true := by
        rw [hins]
        by_cases hc : (!prev && !output.isEmpty
            && (match output.getLast? with | some l => pyStrip l != "" | none => false)) = true
        · simp only [fixSpacingLoop, htbl, if_pos, hc, if_true]
        · simp only [fixSpacingLoop, htbl, if_pos, hc, if_false]
          simp
      obtain ⟨res, h1, h2, h3⟩ := ih ((output ++ ins) ++ [line]) true
      refine ⟨ins ++ line :: res, ?_, ?_, ?_⟩
      · rw [hstep, h1]; simp
      · have hsub : (line :: rest).Sublist (line :: res) := h2.cons₂ line
        rw [hins]
        by_cases hc : (!prev && !output.isEmpty
            && (match output.getLast? with | some l => pyStrip l != "" | none => false)) = true
        · rw [if_pos hc]; exact hsub.cons ""
        · rw [if_neg hc]; exact hsub
      · intro l hl
        rw [hins] at hl
        rcases List.mem_append.mp hl with hl | hl
        · right
          rcases (by split at hl <;> simp_all : l = "" ∨ False) with h | h
          · exact h
          · exact absurd h (by simp)
        · rcases List.mem_cons.mp hl with hl | hl
          · exact Or.inl (by simp [hl])
          · rcases h3 l hl with h | h
            · exact Or.inl (List.mem_cons_of_mem _ h)
            · exact Or.inr h
    · set ins : List String := (if prev && pyStrip line != "" then [""] else []) with hins
      have hstep : fixSpacingLoop output (line :: rest) prev
          = fixSpacingLoop ((output ++ ins) ++ [line]) rest false := by
        rw [hins]
        by_cases hc : (prev && pyStrip line != "") = true
        · simp only [fixSpacingLoop, htbl, hc, if_true, if_false]
          simp [htbl]
        · simp only [fixSpacingLoop, htbl, hc, if_true, if_false]
          simp [htbl]
      obtain ⟨res, h1, h2, h3⟩ := ih ((output ++ ins) ++ [line]) false
      refine ⟨ins ++ line :: res, ?_, ?_, ?_⟩
      · rw [hstep, h1]; simp
      · have hsub : (line :: rest).Sublist (line :: res) := h2.cons₂ line
        rw [hins]
        by_cases hc : (prev && pyStrip line != "") = true
        · rw [if_pos hc]; exact hsub.cons ""
        · rw [if_neg hc]; exact hsub
      · intro l hl
        rw [hins] at hl
        rcases List.mem_append.mp hl with hl | hl
        · right
          rcases (by split at hl <;> simp_all : l = "" ∨ False) with h | h
          · exact h
          · exact absurd h (by simp)
        · rcases List.mem_cons.mp hl with hl | hl
          · exact Or.inl (by simp [hl])
          · rcases h3 l hl with h | h
            · exact Or.inl (List.mem_cons_of_mem _ h)
            · exact Or.inr h

/-- C10: the spacing pass never deletes or modifies a line — its output
lines are exactly the input lines, in order, with only empty lines
inserted: the input line list is a sublist of the output line list, and
every output line is an input line or empty. -/
theorem claimC10_spacing_frame (markdown : String) :
    ∃ out : List String,
      fix_spacing_between_tables_and_text markdown = pyJoinWith "\n" out ∧
      (pySplitChar '\n' markdown).Sublist out ∧
      ∀ l ∈ out, l ∈ pySplitChar '\n' markdown ∨ l = "" := by
  obtain ⟨res, h1, h2, h3⟩ := fixSpacingLoop_frame (pySplitChar '\n' markdown) [] false
  refine ⟨res, ?_, h2, h3⟩
  unfold fix_spacing_between_tables_and_text
  rw [h1]
  simp

/-! ## Stale-section removal: machine equivalence (C3) -/

theorem specTocHeadingTail_eq (rest : List Char) :
    specTocHeadingTail rest
      = (lowerC (rest.drop (rest.takeWhile (· = '#')).length) == " table of contents".data) := by
  induction rest with
  | nil => rfl
  | cons c r ih =>
    by_cases hc : c = '#'
    · subst hc
      rw [show specTocHeadingTail ('#' :: r) = specTocHeadingTail r from rfl, ih]
      simp [List.takeWhile_cons]
    · unfold specTocHeadingTail
      split
      all_goals simp_all [List.takeWhile_cons]

theorem specIsTocHeading_eq (line : String) :
    specIsTocHeading line = isTocHeadingLine line := by
  unfold specIsTocHeading isTocHeadingLine
  rcases hd : (pyStrip line).data with _ | ⟨c, t⟩
  · rfl
  · by_cases hc : c = '#'
    · subst hc
      rw [show (match ('#' :: t : List Char) with
          | '#' :: rest => specTocHeadingTail rest
          | _ => false) = specTocHeadingTail t from rfl]
      rw [specTocHeadingTail_eq]
      simp [List.takeWhile_cons]
    · have h1 : (match (c :: t : List Char) with
          | '#' :: rest => specTocHeadingTail rest
          | _ => false) = false := by
        split
        all_goals simp_all
      rw [h1]
      simp [List.takeWhile_cons, hc]

theorem specIsBulletLine_eq (line : String) :
    specIsBulletLine line = (pyStartsWith line "*" || pyStartsWith line "  *") := by
  unfold specIsBulletLine pyStartsWith
  split
  · rename_i heq
    rw [heq]
    simp [List.isPrefixOf]
  · rename_i heq
    rw [heq]
    simp [List.isPrefixOf]
  · rename_i h1 h2
    rcases hb1 : ("*".data : List Char).isPrefixOf line.data with _ | _
    · rcases hb2 : ("  *".data : List Char).isPrefixOf line.data with _ | _
      · simp
      · obtain ⟨t, ht⟩ := List.isPrefixOf_iff_prefix.mp hb2
        exact absurd ht.symm (by simpa using h2 t)
    · obtain ⟨t, ht⟩ := List.isPrefixOf_iff_prefix.mp hb1
      exact absurd ht.symm (by simpa using h1 t)

theorem specIsWip_eq (line : String) : specIsWip line = isWipLine line := rfl

theorem specIsArtifact_eq (line : String) : specIsArtifact line = isArtifactLine line := rfl

theorem cleanLoop_eq_spec (ls : List String) :
    ∀ b : Bool, cleanLoop ls b = specCleanLines b ls := by
  induction ls with
  | nil => intro b; rfl
  | cons line rest ih =>
    intro b
    cases b with
    | false =>
      simp [cleanLoop, specCleanLines, ih, specIsTocHeading_eq, specIsWip_eq,
        specIsArtifact_eq]
      by_cases hh : isTocHeadingLine line = true <;>
        by_cases hw : isWipLine line = true <;>
        by_cases ha : isArtifactLine line = true <;>
        simp [hh, hw, ha]
    | true =>
      by_cases hs1 : pyStartsWith line "*" = true
      · have hbl : specIsBulletLine line = true := by
          rw [specIsBulletLine_eq, hs1]; rfl
        simp [cleanLoop, specCleanLines, ih, hs1, hbl]
      · by_cases hs2 : pyStartsWith line "  *" = true
        · have hbl : specIsBulletLine line = true := by
            rw [specIsBulletLine_eq, hs2]; simp
          simp [cleanLoop, specCleanLines, ih, hs1, hs2, hbl]
        · have hbl : specIsBulletLine line = false := by
            rw [specIsBulletLine_eq]
            simp [hs1, hs2]
          simp [cleanLoop, specCleanLines, ih, hs1, hs2, hbl, specIsTocHeading_eq,
            specIsWip_eq, specIsArtifact_eq]
          by_cases hh : isTocHeadingLine line = true <;>
            by_cases hw : isWipLine line = true <;>
            by_cases ha : isArtifactLine line = true <;>
            simp [hh, hw, ha]

/-- C3 (amended): the stale-section removal pass starts a removal region
exactly at a (stripped) heading line of **one or more** `#` characters
whose text, case-insensitively, is exactly "Table of Contents", and the
region extends through every immediately following line starting with `*`
or with two spaces then `*`, ending at the first line violating that
pattern: `clean_existing_toc_and_wip_section` equals the specification's
two-state machine built from exactly those rules (plus the work-in-
progress and artifact-literal line drops of §4.4(c)). -/
theorem claimC3_amended_machine (markdown : String) :
    clean_existing_toc_and_wip_section markdown = specCleanPass markdown := by
  unfold clean_existing_toc_and_wip_section specCleanPass
  rw [cleanLoop_eq_spec]

/-- C3, as stated, is false: a heading line of seven `#` characters does
start a removal region.  On `"####### Table of Contents\n* x"` the pass
removes both lines (result `""`) instead of leaving the text unchanged as
the 1-to-6-hash reading predicts. -/
theorem claimC3_counterexample :
    clean_existing_toc_and_wip_section "####### Table of Contents\n* x" = "" ∧
      clean_existing_toc_and_wip_section "####### Table of Contents\n* x"
        ≠ "####### Table of Contents\n* x" := by
  refine ⟨by decide, ?_⟩
  intro h
  rw [show clean_existing_toc_and_wip_section "####### Table of Contents\n* x" = ""
    from by decide] at h
  exact absurd h (by decide)

/-! ## Pseudo-list extraction (C6) and asset rewriting (C7) -/

/-- C6: the pseudo-list preprocessor turns a table cell whose inner markup
is exactly `* a<br>* b<br>* c` into a single unordered list with exactly
the items "a", "b", "c" in order; and a cell with no bullet-glyph-prefixed
line and no line break (no `<br` occurrence) is left untouched. -/
theorem claimC6_pseudo_list :
    fix_lists_in_table_cell (.raw "* a<br>* b<br>* c") = .ulist ["a", "b", "c"] ∧
    ∀ html : String, hasSub "<br".data html.data = false →
      (∀ g ∈ (["*", "-", "•"] : List String), pyStartsWith (pyStrip html) g = false) →
      fix_lists_in_table_cell (.raw html) = .raw html := by
  constructor
  · simp only [fix_lists_in_table_cell]
    rw [show cellCond "* a<br>* b<br>* c" = true from by decide]
    rw [show pySplitBr "* a<br>* b<br>* c" = ["* a", "* b", "* c"] from by
      simp [pySplitBr, splitBrGo, brTailAfterMatch, isPySpace]]
    simp [pyStrip, trimC, isPySpace, pyStartsWith, List.isPrefixOf, stripBulletPrefix,
      List.dropWhile]
  · intro html hbr hg
    have hcond : cellCond html = false := by
      unfold cellCond
      rw [hbr, Bool.or_false, List.any_eq_false]
      intro g hgm
      simp [hg g hgm]
    simp [fix_lists_in_table_cell, hcond]

/-- Witness for the untouched-cell half of C6 at a concrete cell. -/
theorem claimC6_pseudo_list_witness :
    fix_lists_in_table_cell (.raw "hello world") = .raw "hello world" :=
  claimC6_pseudo_list.2 "hello world" (by decide) (by decide)

mutual
/-- Modelled from the spec: the converter "never raises a fatal error";
rendering any node succeeds. -/
theorem mdRender_ok (t : SoupNode) : ∃ s, mdRender t = Except.ok s := by
  cases t with
  | text s => exact ⟨s, rfl⟩
  | elem tag attrs children =>
    by_cases h : tag = "img"
    · exact ⟨"![](" ++ ((attrVal attrs "src").getD "") ++ ")", by simp [mdRender, h]⟩
    · obtain ⟨ss, hss⟩ := mdRenderList_ok children
      exact ⟨String.join ss, by simp [mdRender, h, hss]⟩

/-- Rendering any list of children succeeds. -/
theorem mdRenderList_ok (l : List SoupNode) : ∃ ss, mdRenderList l = Except.ok ss := by
  cases l with
  | nil => exact ⟨[], rfl⟩
  | cons n rest =>
    obtain ⟨s, hs⟩ := mdRender_ok n
    obtain ⟨ss, hss⟩ := mdRenderList_ok rest
    exact ⟨s :: ss, by simp [mdRenderList, hs, hss]⟩
end

/-- C7 (amended): an embedded-image node whose referenced filename has no
entry in the Attachment Map is left unreplaced (it stays an `ac:image`
element with its attributes; no generic image node is emitted for it), and
converting any tree to Markdown raises no error; a filename that is in the
map **with a non-empty sanitized filename** is replaced by a generic image
node with source path `./attachments/<document-id>/<sanitized-filename>`. -/
theorem claimC7_amended_asset_rewrite :
    (∀ (pid : String) (amap : List (String × String)) (attrs riAttrs : List (String × String))
        (children : List SoupNode) (orig : String),
      findRiAttachment children = some riAttrs →
      attrVal riAttrs "ri:filename" = some orig →
      mapGet amap orig = none →
      rewriteImages pid amap (.elem "ac:image" attrs children)
        = .elem "ac:image" attrs (rewriteImagesList pid amap children)) ∧
    (∀ t : SoupNode, ∃ s, mdRender t = Except.ok s) ∧
    (∀ (pid : String) (amap : List (String × String)) (attrs riAttrs : List (String × String))
        (children : List SoupNode) (orig fn : String),
      findRiAttachment children = some riAttrs →
      attrVal riAttrs "ri:filename" = some orig →
      mapGet amap orig = some fn → fn ≠ "" →
      rewriteImages pid amap (.elem "ac:image" attrs children)
        = .elem "img" [("src", "./attachments/" ++ pid ++ "/" ++ fn)] []) := by
  refine ⟨?_, mdRender_ok, ?_⟩
  · intro pid amap attrs riAttrs children orig h1 h2 h3
    simp [rewriteImages, h1, h2, h3]
  · intro pid amap attrs riAttrs children orig fn h1 h2 h3 h4
    simp [rewriteImages, h1, h2, h3, h4]

/-- Witness for the amended C7 at concrete inputs: a stale reference is
kept as an `ac:image` node, and a mapped, non-empty filename is rewritten
to the predictable relative path. -/
theorem claimC7_amended_asset_rewrite_witness :
    rewriteImages "p1" [("a.png", "a.png")]
        (.elem "ac:image" [] [.elem "ri:attachment" [("ri:filename", "b.png")] []])
      = .elem "ac:image" []
          (rewriteImagesList "p1" [("a.png", "a.png")]
            [.elem "ri:attachment" [("ri:filename", "b.png")] []]) ∧
    (∃ s, mdRender (.text "x") = Except.ok s) ∧
    rewriteImages "p1" [("a.png", "a.png")]
        (.elem "ac:image" [] [.elem "ri:attachment" [("ri:filename", "a.png")] []])
      = .elem "img" [("src", "./attachments/p1/a.png")] [] := by
  refine ⟨?_, claimC7_amended_asset_rewrite.2.1 (.text "x"), ?_⟩
  · exact claimC7_amended_asset_rewrite.1 "p1" [("a.png", "a.png")] []
      [("ri:filename", "b.png")] [.elem "ri:attachment" [("ri:filename", "b.png")] []]
      "b.png" (by simp [findRiAttachment]) (by simp [attrVal, List.find?]) (by simp [mapGet, List.find?])
  · exact claimC7_amended_asset_rewrite.2.2 "p1" [("a.png", "a.png")] []
      [("ri:filename", "a.png")] [.elem "ri:attachment" [("ri:filename", "a.png")] []]
      "a.png" "a.png" (by simp [findRiAttachment]) (by simp [attrVal, List.find?])
      (by simp [mapGet, List.find?]) (by simp)

/-- C7, as stated, is false at an Attachment Map entry whose sanitized
filename is empty (Python's `if filename:` is false for `""`): the
filename "x.png" is in the map, yet the node is left unreplaced rather
than rewritten to a generic image node. -/
theorem claimC7_counterexample :
    rewriteImages "p1" [("x.png", "")]
        (.elem "ac:image" [] [.elem "ri:attachment" [("ri:filename", "x.png")] []])
      = .elem "ac:image" [] [.elem "ri:attachment" [("ri:filename", "x.png")] []] ∧
    ∀ src : String,
      rewriteImages "p1" [("x.png", "")]
          (.elem "ac:image" [] [.elem "ri:attachment" [("ri:filename", "x.png")] []])
        ≠ .elem "img" [("src", src)] [] := by
  have h : rewriteImages "p1" [("x.png", "")]
      (.elem "ac:image" [] [.elem "ri:attachment" [("ri:filename", "x.png")] []])
      = .elem "ac:image" [] [.elem "ri:attachment" [("ri:filename", "x.png")] []] := by
    simp [rewriteImages, rewriteImagesList, findRiAttachment, attrVal, mapGet, List.find?]
  refine ⟨h, fun src hcon => ?_⟩
  rw [h] at hcon
  simp at hcon

/-! ## The table-line invariant (C2) -/

theorem head?_dropWhile_not {α : Type} (p : α → Bool) (l : List α) {a : α}
    (h : (l.dropWhile p).head? = some a) : p a = false := by
  induction l with
  | nil => simp at h
  | cons c t ih =>
    by_cases hc : p c = true
    · rw [List.dropWhile_cons_of_pos hc] at h
      exact ih h
    · rw [List.dropWhile_cons_of_neg hc] at h
      simp only [List.head?_cons, Option.some.injEq] at h
      subst h
      simpa using hc

theorem not_mem_splitOnCharC {sep : Char} {l : List Char} :
    ∀ piece ∈ splitOnCharC sep l, sep ∉ piece := by
  induction l with
  | nil =>
    intro piece hp
    simp only [splitOnCharC, List.mem_singleton] at hp
    subst hp
    simp
  | cons c cs ih =>
    intro piece hp
    by_cases hc : c = sep
    · rw [splitOnCharC, if_pos hc] at hp
      rcases List.mem_cons.mp hp with h | h
      · subst h; simp
      · exact ih piece h
    · rw [splitOnCharC, if_neg hc] at hp
      rcases hrec : splitOnCharC sep cs with _ | ⟨h0, t0⟩
      · rw [hrec] at hp
        simp only [List.mem_singleton] at hp
        subst hp
        simp only [List.mem_singleton]
        exact fun he => hc he.symm
      · rw [hrec] at hp
        rcases List.mem_cons.mp hp with h | h
        · subst h
          intro hmem
          rcases List.mem_cons.mp hmem with h | h
          · exact hc h.symm
          · exact ih h0 (by rw [hrec]; exact List.mem_cons_self h0 t0) h
        · exact ih piece (by rw [hrec]; exact List.mem_cons_of_mem h0 h)

theorem dropWhile_eq_self_of_head {α : Type} {p : α → Bool} {l : List α}
    (h : ∀ a, l.head? = some a → p a = false) : l.dropWhile p = l := by
  cases l with
  | nil => rfl
  | cons c t =>
    rw [List.dropWhile_cons_of_neg]
    simp [h c rfl]

theorem getLast?_trimC_not_space {l : List Char} {a : Char}
    (h : (trimC l).getLast? = some a) : isPySpace a = false := by
  unfold trimC at h
  rw [List.getLast?_reverse] at h
  exact head?_dropWhile_not _ _ h

theorem head?_trimC_not_space {l : List Char} {a : Char}
    (h : (trimC l).head? = some a) : isPySpace a = false := by
  unfold trimC at h
  rw [List.head?_reverse] at h
  obtain ⟨pre, hpre⟩ := List.dropWhile_suffix
    (l := (l.dropWhile isPySpace).reverse) (p := isPySpace)
  have hY : ((l.dropWhile isPySpace).reverse).getLast? = some a := by
    rw [← hpre, List.getLast?_append, h]
    rfl
  rw [List.getLast?_reverse] at hY
  exact head?_dropWhile_not _ _ hY

theorem trimC_idem (l : List Char) : trimC (trimC l) = trimC l := by
  have h1 : (trimC l).dropWhile isPySpace = trimC l :=
    dropWhile_eq_self_of_head fun a ha => head?_trimC_not_space ha
  have h2 : ((trimC l).reverse).dropWhile isPySpace = (trimC l).reverse := by
    apply dropWhile_eq_self_of_head
    intro a ha
    rw [List.head?_reverse] at ha
    exact getLast?_trimC_not_space ha
  show (((trimC l).dropWhile isPySpace).reverse.dropWhile isPySpace).reverse = trimC l
  rw [h1, h2, List.reverse_reverse]

theorem mem_trimC {l : List Char} {a : Char} (h : a ∈ trimC l) : a ∈ l := by
  unfold trimC at h
  rw [List.mem_reverse] at h
  have h2 := (List.dropWhile_sublist (l := (l.dropWhile isPySpace).reverse)
    (p := isPySpace)).subset h
  rw [List.mem_reverse] at h2
  exact (List.dropWhile_sublist (l := l) (p := isPySpace)).subset h2

theorem no_pipe_hasDoublePipe {xs : List Char} (h : '|' ∉ xs) :
    hasDoublePipe xs = false := by
  induction xs with
  | nil => rfl
  | cons a t ih =>
    simp only [List.mem_cons, not_or] at h
    cases t with
    | nil => rfl
    | cons b r =>
      show ((a = '|' && b = '|') || hasDoublePipe (b :: r)) = false
      rw [ih (by simpa using h.2)]
      simp only [Bool.or_false, Bool.and_eq_false_iff, decide_eq_false_iff_not]
      exact Or.inl (fun he => h.1 he.symm)

theorem hasDoublePipe_append (xs ys : List Char) :
    hasDoublePipe (xs ++ ys) = true ↔
      (hasDoublePipe xs = true ∨ hasDoublePipe ys = true ∨
        (xs.getLast? = some '|' ∧ ys.head? = some '|')) := by
  induction xs with
  | nil => simp [hasDoublePipe]
  | cons a t ih =>
    cases t with
    | nil =>
      cases ys with
      | nil => simp [hasDoublePipe]
      | cons b ys' =>
        show ((a = '|' && b = '|') || hasDoublePipe (b :: ys')) = true ↔ _
        simp only [hasDoublePipe, Bool.or_eq_true, Bool.and_eq_true,
          decide_eq_true_eq, List.getLast?_singleton, List.head?_cons,
          Option.some.injEq]
        constructor
        · rintro (⟨h1, h2⟩ | h)
          · exact Or.inr (Or.inr ⟨h1, h2⟩)
          · exact Or.inr (Or.inl h)
        · rintro (h | h | ⟨h1, h2⟩)
          · simp at h
          · exact Or.inr h
          · exact Or.inl ⟨h1, h2⟩
    | cons b r =>
      show ((a = '|' && b = '|') || hasDoublePipe ((b :: r) ++ ys)) = true ↔ _
      rw [Bool.or_eq_true, ih]
      have hgl : (a :: b :: r).getLast? = (b :: r).getLast? := by
        simp [List.getLast?]
      rw [hgl]
      show _ ↔ (((a = '|' && b = '|') || hasDoublePipe (b :: r)) = true ∨ _)
      rw [Bool.or_eq_true]
      tauto

theorem hasDoublePipe_append_false {xs ys : List Char}
    (h1 : hasDoublePipe xs = false) (h2 : hasDoublePipe ys = false)
    (h3 : ¬(xs.getLast? = some '|' ∧ ys.head? = some '|')) :
    hasDoublePipe (xs ++ ys) = false := by
  rcases hb : hasDoublePipe (xs ++ ys) with _ | _
  · rfl
  · rcases (hasDoublePipe_append xs ys).mp hb with h | h | h
    · rw [h1] at h; exact absurd h (by simp)
    · rw [h2] at h; exact absurd h (by simp)
    · exact absurd h h3

theorem joinBar_props :
    ∀ parts : List String, (∀ q ∈ parts, '|' ∉ q.data) →
      hasDoublePipe (pyJoinWith " | " parts).data = false ∧
      (pyJoinWith " | " parts).data.head? ≠ some '|' ∧
      (pyJoinWith " | " parts).data.getLast? ≠ some '|' := by
  intro parts
  induction parts with
  | nil => intro _; exact ⟨rfl, by simp [pyJoinWith], by simp [pyJoinWith]⟩
  | cons q rest ih =>
    intro hq
    cases rest with
    | nil =>
      have hq1 : '|' ∉ q.data := hq q (by simp)
      refine ⟨no_pipe_hasDoublePipe hq1, ?_, ?_⟩
      · intro hc
        exact hq1 (List.mem_of_mem_head? (show ('|' : Char) ∈ q.data.head? by simp [pyJoinWith] at hc; simp [hc]))
      · intro hc
        exact hq1 (List.mem_of_mem_getLast? (show ('|' : Char) ∈ q.data.getLast? by simp [pyJoinWith] at hc; simp [hc]))
    | cons q' rest' =>
      have hq1 : '|' ∉ q.data := hq q (by simp)
      obtain ⟨ih1, ih2, ih3⟩ := ih (fun r hr => hq r (List.mem_cons_of_mem _ hr))
      have hdata : (pyJoinWith " | " (q :: q' :: rest')).data
          = q.data ++ ([' ', '|', ' '] ++ (pyJoinWith " | " (q' :: rest')).data) := by
        show ((q ++ " | ") ++ pyJoinWith " | " (q' :: rest')).data = _
        rw [String.data_append, String.data_append]
        rw [List.append_assoc]
      rw [hdata]
      have hsep : hasDoublePipe ([' ', '|', ' '] ++ (pyJoinWith " | " (q' :: rest')).data) = false := by
        apply hasDoublePipe_append_false (by decide) ih1
        rintro ⟨hx, -⟩
        exact absurd hx (by decide)
      refine ⟨?_, ?_, ?_⟩
      · apply hasDoublePipe_append_false (no_pipe_hasDoublePipe hq1) hsep
        rintro ⟨hx, -⟩
        exact hq1 (List.mem_of_mem_getLast? (by simp [hx]))
      · rw [List.head?_append]
        rcases hqd : q.data.head? with _ | c
        · rw [List.head?_append]
          intro hc
          simp at hc
        · intro hc
          simp only [Option.or_some, Option.some.injEq] at hc
          subst hc
          exact hq1 (List.mem_of_mem_head? (by simp [hqd]))
      · rw [List.getLast?_append, List.getLast?_append]
        rcases hJl : (pyJoinWith " | " (q' :: rest')).data.getLast? with _ | c
        · intro hc
          simp at hc
        · intro hc
          simp only [Option.or_some, Option.some.injEq] at hc
          subst hc
          exact ih3 hJl

theorem realignRow_props (line : String) :
    ∃ parts : List String,
      realignRow line = "| " ++ pyJoinWith " | " parts ++ " |" ∧
      parts.head? ≠ some "" ∧ parts.getLast? ≠ some "" ∧
      (∀ q ∈ parts, pyStrip q = q ∧ '|' ∉ q.data) ∧
      List.IsPrefix ['|', ' '] (realignRow line).data ∧
      List.IsSuffix [' ', '|'] (realignRow line).data ∧
      hasDoublePipe (realignRow line).data = false := by
  refine ⟨((((pySplitChar '|' line).map pyStrip).dropWhile
    (· == "")).reverse.dropWhile (· == "")).reverse, rfl, ?_, ?_, ?_, ?_, ?_, ?_⟩
  case refine_3 =>
    intro q hqp
    rw [List.mem_reverse] at hqp
    have h1 := (List.dropWhile_sublist (p := (· == ""))).subset hqp
    rw [List.mem_reverse] at h1
    have h0 := (List.dropWhile_sublist (p := (· == ""))).subset h1
    rw [List.mem_map] at h0
    obtain ⟨r, hr, hqr⟩ := h0
    constructor
    · rw [← hqr]
      show (⟨trimC (trimC r.data)⟩ : String) = ⟨trimC r.data⟩
      exact congrArg String.mk (trimC_idem r.data)
    · rw [← hqr]
      intro hpm
      have h2 : ('|' : Char) ∈ r.data := mem_trimC hpm
      rw [pySplitChar, List.mem_map] at hr
      obtain ⟨piece, hpc, hrp⟩ := hr
      rw [← hrp] at h2
      exact not_mem_splitOnCharC piece hpc h2
  case refine_1 =>
    intro hcon
    have hpre : ((((pySplitChar '|' line).map pyStrip).dropWhile
        (· == "")).reverse.dropWhile (· == "")).reverse.IsPrefix
        (((pySplitChar '|' line).map pyStrip).dropWhile (· == "")) :=
      List.rdropWhile_prefix _ _
    obtain ⟨t, ht⟩ := hpre
    have hP1h : (((pySplitChar '|' line).map pyStrip).dropWhile (· == "")).head? = some "" := by
      rw [← ht]
      rcases hshape : ((((pySplitChar '|' line).map pyStrip).dropWhile
          (· == "")).reverse.dropWhile (· == "")).reverse with _ | ⟨x, xs⟩
      · rw [hshape] at hcon; simp at hcon
      · rw [hshape] at hcon
        simp only [List.head?_cons, Option.some.injEq] at hcon
        subst hcon
        simp
    have hne := head?_dropWhile_not (· == "") _ hP1h
    simp at hne
  case refine_2 =>
    rw [List.getLast?_reverse]
    rcases hp : ((((pySplitChar '|' line).map pyStrip).dropWhile
      (· == "")).reverse.dropWhile (· == "")).head? with _ | q
    · simp
    · have hne := head?_dropWhile_not (· == "") _ hp
      intro hcon
      simp only [Option.some.injEq] at hcon
      rw [hcon] at hne
      simp at hne
  case refine_4 =>
    refine ⟨(pyJoinWith " | " (((((pySplitChar '|' line).map pyStrip).dropWhile
      (· == "")).reverse.dropWhile (· == "")).reverse)).data ++ [' ', '|'], ?_⟩
    show _ = (("| " ++ _) ++ " |").data
    rw [String.data_append, String.data_append]
    rw [List.append_assoc]
  case refine_5 =>
    refine ⟨['|', ' '] ++ (pyJoinWith " | " (((((pySplitChar '|' line).map pyStrip).dropWhile
      (· == "")).reverse.dropWhile (· == "")).reverse)).data, ?_⟩
    show _ = (("| " ++ _) ++ " |").data
    rw [String.data_append, String.data_append]
  case refine_6 =>
    have hpartsfree : ∀ q ∈ ((((pySplitChar '|' line).map pyStrip).dropWhile
        (· == "")).reverse.dropWhile (· == "")).reverse, '|' ∉ q.data := by
      intro q hqp
      rw [List.mem_reverse] at hqp
      have h1 := (List.dropWhile_sublist (p := (· == ""))).subset hqp
      rw [List.mem_reverse] at h1
      have h0 := (List.dropWhile_sublist (p := (· == ""))).subset h1
      rw [List.mem_map] at h0
      obtain ⟨r, hr, hqr⟩ := h0
      rw [← hqr]
      intro hpm
      have h2 : ('|' : Char) ∈ r.data := mem_trimC hpm
      rw [pySplitChar, List.mem_map] at hr
      obtain ⟨piece, hpc, hrp⟩ := hr
      rw [← hrp] at h2
      exact not_mem_splitOnCharC piece hpc h2
    obtain ⟨j1, j2, j3⟩ := joinBar_props _ hpartsfree
    have hdata : (realignRow line).data
        = (['|', ' '] ++ (pyJoinWith " | " (((((pySplitChar '|' line).map pyStrip).dropWhile
            (· == "")).reverse.dropWhile (· == "")).reverse)).data) ++ [' ', '|'] := by
      show (("| " ++ _) ++ " |").data = _
      rw [String.data_append, String.data_append]
    rw [hdata]
    apply hasDoublePipe_append_false _ (by decide)
    · rintro ⟨-, hx⟩
      exact absurd hx (by decide)
    · apply hasDoublePipe_append_false (by decide) j1
      rintro ⟨hx, -⟩
      exact absurd hx (by decide)

theorem fixTableAnnotated_true_mem :
    ∀ (ls : List String) (inside : Bool) (p : Bool × String),
      p ∈ fixTableAnnotated inside ls → p.1 = true → ∃ line, p.2 = realignRow line := by
  intro ls
  induction ls with
  | nil =>
    intro inside p hp
    simp [fixTableAnnotated] at hp
  | cons line rest ih =>
    intro inside p hp htrue
    rw [show fixTableAnnotated inside (line :: rest)
        = (alignStep inside line,
            if alignStep inside line then realignRow line else line)
          :: fixTableAnnotated (alignStep inside line) rest from rfl] at hp
    rcases List.mem_cons.mp hp with h | h
    · refine ⟨line, ?_⟩
      rw [h] at htrue ⊢
      simp only at htrue
      simp only [htrue, if_true]
    · exact ih _ p h htrue

/-- C2: every output line of `fix_table_column_alignment` that is
classified as a table line (emitted inside table mode) is of the form
`'| ' + ' | '.join(parts) + ' |'` for a part list that is stripped,
pipe-free, and has no leading or trailing empty cell; consequently it
starts with `"| "`, ends with `" |"`, and contains no doubled pipes. -/
theorem claimC2_table_line_invariant (markdown : String) :
    ∀ p ∈ fixTableAnnotated false (pySplitChar '\n' markdown), p.1 = true →
      ∃ parts : List String,
        p.2 = "| " ++ pyJoinWith " | " parts ++ " |" ∧
        parts.head? ≠ some "" ∧ parts.getLast? ≠ some "" ∧
        (∀ q ∈ parts, pyStrip q = q ∧ '|' ∉ q.data) ∧
        List.IsPrefix ['|', ' '] p.2.data ∧
        List.IsSuffix [' ', '|'] p.2.data ∧
        hasDoublePipe p.2.data = false := by
  intro p hp htrue
  obtain ⟨line, hline⟩ := fixTableAnnotated_true_mem _ false p hp htrue
  obtain ⟨parts, h1, h2, h3, h4, h5, h6, h7⟩ := realignRow_props line
  refine ⟨parts, ?_, h2, h3, h4, ?_, ?_, ?_⟩
  · rw [hline, h1]
  · rw [hline]; exact h5
  · rw [hline]; exact h6
  · rw [hline]; exact h7

/-- Witness for C2 at a concrete input: the single table-classified output
line of `fix_table_column_alignment "|a|"`. -/
theorem claimC2_table_line_invariant_witness :
    ∃ parts : List String,
      ((true, "| a |") : Bool × String).2 = "| " ++ pyJoinWith " | " parts ++ " |" ∧
      parts.head? ≠ some "" ∧ parts.getLast? ≠ some "" ∧
      (∀ q ∈ parts, pyStrip q = q ∧ '|' ∉ q.data) ∧
      List.IsPrefix ['|', ' '] ((true, "| a |") : Bool × String).2.data ∧
      List.IsSuffix [' ', '|'] ((true, "| a |") : Bool × String).2.data ∧
      hasDoublePipe ((true, "| a |") : Bool × String).2.data = false :=
  claimC2_table_line_invariant "|a|" (true, "| a |") (by decide) rfl

/-! ## Idempotence of stale-section removal on generated output (C1) -/

theorem splitOnCharC_ne_nil (sep : Char) (l : List Char) : splitOnCharC sep l ≠ [] := by
  cases l with
  | nil => simp [splitOnCharC]
  | cons c cs =>
    unfold splitOnCharC
    by_cases hc : c = sep
    · rw [if_pos hc]; simp
    · rw [if_neg hc]
      rcases splitOnCharC sep cs with _ | ⟨h, t⟩ <;> simp

theorem splitOnCharC_append_sep {sep : Char} {a : List Char} (rest : List Char)
    (ha : sep ∉ a) : splitOnCharC sep (a ++ sep :: rest) = a :: splitOnCharC sep rest := by
  induction a with
  | nil =>
    simp [splitOnCharC]
  | cons c a' ih =>
    simp only [List.mem_cons, not_or] at ha
    show splitOnCharC sep (c :: (a' ++ sep :: rest)) = (c :: a') :: splitOnCharC sep rest
    rw [show splitOnCharC sep (c :: (a' ++ sep :: rest))
        = if c = sep then [] :: splitOnCharC sep (a' ++ sep :: rest)
          else (match splitOnCharC sep (a' ++ sep :: rest) with
                | [] => [[c]]
                | h :: t => (c :: h) :: t) from rfl]
    rw [if_neg (Ne.symm ha.1), ih ha.2]

theorem getLast?_append_cons (A : List Char) (c : Char) (B : List Char) :
    (A ++ c :: B).getLast? = (c :: B).getLast? := by
  induction A with
  | nil => rfl
  | cons a A' ih =>
    cases hA : A' ++ c :: B with
    | nil => exact absurd hA (by simp)
    | cons x xs' =>
      rw [List.cons_append, hA, List.getLast?_cons_cons, ← hA, ih]

theorem joinNl_data_split (entries : List String) (hne : entries ≠ [])
    (hnl : ∀ e ∈ entries, '\n' ∉ e.data) (rest : List Char) :
    splitOnCharC '\n' ((pyJoinWith "\n" entries).data ++ '\n' :: rest)
      = (entries.map String.data) ++ splitOnCharC '\n' rest := by
  induction entries with
  | nil => exact absurd rfl hne
  | cons q rest' ih =>
    cases rest' with
    | nil =>
      show splitOnCharC '\n' (q.data ++ '\n' :: rest) = [q.data] ++ splitOnCharC '\n' rest
      rw [splitOnCharC_append_sep rest (hnl q (by simp))]
      rfl
    | cons q' rest'' =>
      have hdata : (pyJoinWith "\n" (q :: q' :: rest'')).data
          = q.data ++ '\n' :: (pyJoinWith "\n" (q' :: rest'')).data := by
        show ((q ++ "\n") ++ pyJoinWith "\n" (q' :: rest'')).data = _
        rw [String.data_append, String.data_append]
        rw [List.append_assoc]
        rfl
      rw [hdata, List.append_assoc]
      rw [show ('\n' :: (pyJoinWith "\n" (q' :: rest'')).data) ++ '\n' :: rest
          = '\n' :: ((pyJoinWith "\n" (q' :: rest'')).data ++ '\n' :: rest) from rfl]
      rw [splitOnCharC_append_sep _ (hnl q (by simp))]
      rw [ih (by simp) (fun e he => hnl e (List.mem_cons_of_mem _ he))]
      rfl

theorem no_nl_mem_pySplitlines {s : String} {l : String}
    (h : l ∈ pySplitlines s) : '\n' ∉ l.data := by
  rw [pySplitlines, List.mem_map] at h
  obtain ⟨piece, hpc, hlp⟩ := h
  rw [← hlp]
  unfold pySplitlinesC at hpc
  split_ifs at hpc
  · simp at hpc
  · exact not_mem_splitOnCharC piece ((List.dropLast_sublist _).subset hpc)
  · exact not_mem_splitOnCharC piece hpc

theorem headingMatch_level_range {line : String} {k : Nat} {t : String}
    (h : headingMatch line = some (k, t)) : 1 ≤ k ∧ k ≤ 6 := by
  rw [headingMatch] at h
  rcases hf : [6, 5, 4, 3, 2, 1].find? fun j =>
      (List.replicate j '#' ++ [' ']).isPrefixOf line.data with _ | j
  · rw [hf] at h; simp at h
  · rw [hf] at h
    simp only [Option.map, Option.some.injEq, Prod.mk.injEq] at h
    have hmem := List.mem_of_find?_eq_some hf
    rw [← h.1]
    fin_cases hmem <;> omega

theorem tocEntry_bullet {line e : String} (h : tocEntry line = some e)
    (hlvl : Option.all (fun kt => kt.1 ≤ 2) (headingMatch line) = true) :
    pyStartsWith e "*" = true ∨ pyStartsWith e "  *" = true := by
  rw [tocEntry] at h
  rcases hm : headingMatch line with _ | ⟨k, rest⟩
  · rw [hm] at h
    exact Option.noConfusion h
  · rw [hm] at h hlvl
    dsimp only at h
    have hk2 : k ≤ 2 := by simpa using hlvl
    have hk1 : 1 ≤ k := (headingMatch_level_range hm).1
    split_ifs at h
    simp only [Option.some.injEq] at h
    have hk : k = 1 ∨ k = 2 := by omega
    rcases hk with hk | hk <;> subst hk <;> rw [← h]
    · left
      show ("*".data).isPrefixOf
        (((⟨List.replicate (2 * (1 - 1)) ' '⟩ : String) ++ "* ["
          ++ pyStrip rest ++ "](#" ++ pySlug (pyStrip rest) ++ ")").data) = true
      simp [String.data_append, List.isPrefixOf]
    · right
      show ("  *".data).isPrefixOf
        (((⟨List.replicate (2 * (2 - 1)) ' '⟩ : String) ++ "* ["
          ++ pyStrip rest ++ "](#" ++ pySlug (pyStrip rest) ++ ")").data) = true
      simp [String.data_append, List.isPrefixOf, List.replicate]

theorem pySlug_no_nl {title : String} (h : '\n' ∉ title.data) :
    '\n' ∉ (pySlug title).data := by
  intro hmem
  rw [pySlug] at hmem
  obtain ⟨b, hb, hrepl⟩ := List.mem_map.mp hmem
  obtain ⟨c, hc, hcb⟩ := List.mem_map.mp hb
  have hcX : c ∈ title.data := List.mem_of_mem_filter hc
  have hcne : c ≠ '\n' := fun he => h (he ▸ hcX)
  subst hcb
  by_cases hsp : Char.toLower c = ' '
  · rw [hsp] at hrepl
    exact absurd hrepl (by decide)
  · rw [if_neg hsp] at hrepl
    by_cases hup : 65 ≤ c.toNat ∧ c.toNat ≤ 90
    · have hlow := toLower_toNat_of_upper hup.1 hup.2
      rw [hrepl] at hlow
      have h10 : ('\n').toNat = 10 := rfl
      omega
    · rw [toLower_eq_self_of_not_upper hup] at hrepl
      exact hcne hrepl

theorem tocEntry_no_nl {line e : String} (hline : '\n' ∉ line.data)
    (h : tocEntry line = some e) : '\n' ∉ e.data := by
  rw [tocEntry] at h
  rcases hm : headingMatch line with _ | ⟨k, rest⟩
  · rw [hm] at h
    exact Option.noConfusion h
  · rw [hm] at h
    dsimp only at h
    split_ifs at h
    simp only [Option.some.injEq] at h
    rw [headingMatch] at hm
    rcases hf : [6, 5, 4, 3, 2, 1].find? fun j =>
        (List.replicate j '#' ++ [' ']).isPrefixOf line.data with _ | j
    · rw [hf] at hm; exact Option.noConfusion hm
    · rw [hf] at hm
      simp only [Option.map, Option.some.injEq, Prod.mk.injEq] at hm
      have hrest : rest = (⟨line.data.drop (j + 1)⟩ : String) := hm.2.symm
      have htitle : '\n' ∉ (pyStrip rest).data := by
        intro hmm
        rw [hrest] at hmm
        exact hline (List.drop_subset _ _ (mem_trimC hmm))
      have hslug : '\n' ∉ (pySlug (pyStrip rest)).data := pySlug_no_nl htitle
      intro hmem
      rw [← h] at hmem
      simp only [String.data_append, List.mem_append] at hmem
      rcases hmem with ((((hx | hx) | hx) | hx) | hx) | hx
      · have := List.eq_of_mem_replicate hx
        exact absurd this (by decide)
      · exact absurd hx (by decide)
      · exact htitle hx
      · exact absurd hx (by decide)
      · exact hslug hx
      · exact absurd hx (by decide)

theorem pySplitlinesC_toc_shape (entries : List String) (body : String)
    (hne : entries ≠ []) (hnl : ∀ e ∈ entries, '\n' ∉ e.data) :
    pySplitlinesC ("# Table of Contents".data
        ++ '\n' :: ((pyJoinWith "\n" entries).data ++ '\n' :: body.data))
      = "# Table of Contents".data :: (entries.map String.data) ++ pySplitlinesC body.data := by
  have hsplitD : splitNlC ("# Table of Contents".data
      ++ '\n' :: ((pyJoinWith "\n" entries).data ++ '\n' :: body.data))
      = "# Table of Contents".data :: (entries.map String.data) ++ splitNlC body.data := by
    show splitOnCharC '\n' _ = _
    rw [splitOnCharC_append_sep _ (by decide)]
    rw [joinNl_data_split entries hne hnl body.data]
    rfl
  have hDne : ("# Table of Contents".data
      ++ '\n' :: ((pyJoinWith "\n" entries).data ++ '\n' :: body.data)) ≠ [] := by
    simp
  have hlast : ("# Table of Contents".data
      ++ '\n' :: ((pyJoinWith "\n" entries).data ++ '\n' :: body.data)).getLast?
      = (('\n' :: body.data : List Char)).getLast? := by
    rw [getLast?_append_cons]
    rw [show ('\n' :: ((pyJoinWith "\n" entries).data ++ '\n' :: body.data) : List Char)
        = ('\n' :: (pyJoinWith "\n" entries).data) ++ '\n' :: body.data from by simp]
    rw [getLast?_append_cons]
  unfold pySplitlinesC
  rw [if_neg hDne]
  rcases hbody : body.data with _ | ⟨b, bs⟩
  · rw [hbody] at hsplitD hlast
    rw [if_pos (by rw [hlast]; rfl)]
    rw [hsplitD]
    rw [show ("# Table of Contents".data :: (entries.map String.data) ++ splitNlC [])
        = ("# Table of Contents".data :: entries.map String.data) ++ [[]] from rfl]
    rw [List.dropLast_concat]
    rw [if_pos rfl]
    simp
  · rw [hbody] at hsplitD hlast
    have hSne : splitNlC (b :: bs) ≠ [] := splitOnCharC_ne_nil '\n' (b :: bs)
    have hlaststep : ('\n' :: b :: bs : List Char).getLast? = (b :: bs : List Char).getLast? :=
      getLast?_append_cons ['\n'] b bs
    by_cases hlb : (b :: bs : List Char).getLast? = some '\n'
    · rw [if_pos (by rw [hlast, hlaststep]; exact hlb)]
      rw [hsplitD]
      rw [show ("# Table of Contents".data :: (entries.map String.data) ++ splitNlC (b :: bs))
          = ("# Table of Contents".data :: entries.map String.data) ++ splitNlC (b :: bs)
        from rfl]
      rw [List.dropLast_append_of_ne_nil _ hSne]
      rw [if_neg (show ¬(b :: bs = [] : Prop) by simp), if_pos hlb]
    · rw [if_neg (by rw [hlast, hlaststep]; exact hlb)]
      rw [hsplitD]
      rw [if_neg (show ¬(b :: bs = [] : Prop) by simp), if_neg hlb]

theorem cleanLoop_cons_true (line : String) (rest : List String) :
    cleanLoop (line :: rest) true
      = (if (true && !(pyStartsWith line "*") && !(pyStartsWith line "  *")) = true
         then (if isTocHeadingLine line = true then cleanLoop rest true
               else if isWipLine line = true then cleanLoop rest false
               else if isArtifactLine line = true then cleanLoop rest false
               else line :: cleanLoop rest false)
         else cleanLoop rest true) := by
  by_cases h : (true && !(pyStartsWith line "*") && !(pyStartsWith line "  *")) = true
  · simp only [cleanLoop, h, if_true]
    simp
  · simp only [Bool.not_eq_true] at h
    simp only [cleanLoop, h]
    simp

theorem cleanLoop_cons_false (line : String) (rest : List String) :
    cleanLoop (line :: rest) false
      = (if isTocHeadingLine line = true then cleanLoop rest true
         else if isWipLine line = true then cleanLoop rest false
         else if isArtifactLine line = true then cleanLoop rest false
         else line :: cleanLoop rest false) := by
  simp only [cleanLoop, Bool.false_and, Bool.false_eq_true, if_false]

theorem cleanLoop_toc_block (entries bodyLines : List String)
    (hb : ∀ e ∈ entries, pyStartsWith e "*" = true ∨ pyStartsWith e "  *" = true) :
    cleanLoop (entries ++ bodyLines) true = cleanLoop bodyLines true := by
  induction entries with
  | nil => rfl
  | cons e rest ih =>
    have he := hb e (by simp)
    have hcond : (true && !(pyStartsWith e "*") && !(pyStartsWith e "  *")) = false := by
      rcases he with he | he <;> simp [he]
    show cleanLoop (e :: (rest ++ bodyLines)) true = _
    rw [cleanLoop_cons_true, hcond]
    simp only [Bool.false_eq_true, if_false]
    exact ih (fun x hx => hb x (List.mem_cons_of_mem _ hx))

theorem cleanLoop_keep (bodyLines : List String)
    (hk : ∀ l ∈ bodyLines,
      isTocHeadingLine l = false ∧ isWipLine l = false ∧ isArtifactLine l = false) :
    cleanLoop bodyLines false = bodyLines := by
  induction bodyLines with
  | nil => rfl
  | cons l rest ih =>
    obtain ⟨h1, h2, h3⟩ := hk l (by simp)
    rw [cleanLoop_cons_false, h1, h2, h3]
    simp only [Bool.false_eq_true, if_false]
    rw [ih (fun x hx => hk x (List.mem_cons_of_mem _ hx))]

theorem cleanLoop_exit (b1 : String) (bs : List String)
    (h1 : pyStartsWith b1 "*" = false) (h2 : pyStartsWith b1 "  *" = false) :
    cleanLoop (b1 :: bs) true = cleanLoop (b1 :: bs) false := by
  rw [cleanLoop_cons_true, cleanLoop_cons_false]
  rw [if_pos (by simp [h1, h2])]

/-- C1 (amended): running the TOC generator and then the stale-section
removal pass on text that already contains the generated output removes
exactly the added heading-plus-TOC region, for documents whose headings
all have level at most 2, that produce at least one TOC entry, whose first
line is not a bullet line, and whose lines are not themselves subject to
removal (no "Table of Contents" heading lines, no "work in progress"
lines, no artifact-literal lines). -/
theorem claimC1_amended_idempotence (body : String)
    (hToc : generate_toc body ≠ "")
    (hLvl : ∀ l ∈ pySplitlines body,
      Option.all (fun kt => kt.1 ≤ 2) (headingMatch l) = true)
    (hFirst : ((pySplitlines body).head?.all
      fun l => !(pyStartsWith l "*") && !(pyStartsWith l "  *")) = true)
    (hKeep : ∀ l ∈ pySplitlines body,
      isTocHeadingLine l = false ∧ isWipLine l = false ∧ isArtifactLine l = false) :
    clean_existing_toc_and_wip_section
        ("# Table of Contents\n" ++ generate_toc body ++ "\n" ++ body)
      = pyJoinWith "\n" (pySplitlines body) := by
  have hent : generate_toc body = pyJoinWith "\n" (genTocLoop (pySplitlines body)) := rfl
  set entries := genTocLoop (pySplitlines body) with hentdef
  have hne : entries ≠ [] := by
    intro hnil
    apply hToc
    rw [hent, hnil]
    rfl
  have hmem : ∀ e ∈ entries, ∃ l ∈ pySplitlines body, tocEntry l = some e := by
    intro e he
    rw [hentdef, genTocLoop_eq_filterMap] at he
    exact List.mem_filterMap.mp he
  have hbul : ∀ e ∈ entries, pyStartsWith e "*" = true ∨ pyStartsWith e "  *" = true := by
    intro e he
    obtain ⟨l, hl, hte⟩ := hmem e he
    exact tocEntry_bullet hte (hLvl l hl)
  have hnl : ∀ e ∈ entries, '\n' ∉ e.data := by
    intro e he
    obtain ⟨l, hl, hte⟩ := hmem e he
    exact tocEntry_no_nl (no_nl_mem_pySplitlines hl) hte
  have hTdata : ("# Table of Contents\n" ++ generate_toc body ++ "\n" ++ body).data
      = "# Table of Contents".data
          ++ '\n' :: ((pyJoinWith "\n" entries).data ++ '\n' :: body.data) := by
    rw [hent]
    rw [show ("# Table of Contents\n" ++ pyJoinWith "\n" entries ++ "\n" ++ body)
        = (("# Table of Contents\n" ++ pyJoinWith "\n" entries) ++ "\n") ++ body from rfl]
    rw [String.data_append, String.data_append, String.data_append]
    rw [show ("# Table of Contents\n").data = "# Table of Contents".data ++ ['\n'] from by decide]
    rw [show ("\n" : String).data = ['\n'] from rfl]
    simp [List.append_assoc]
  have hmk : ∀ e : String, (⟨e.data⟩ : String) = e := fun e => rfl
  have hsplit : pySplitlines ("# Table of Contents\n" ++ generate_toc body ++ "\n" ++ body)
      = "# Table of Contents" :: entries ++ pySplitlines body := by
    rw [pySplitlines, hTdata, pySplitlinesC_toc_shape entries body hne hnl]
    simp only [List.map_cons, List.map_append, List.map_map]
    have hcomp : ((fun l => (⟨l⟩ : String)) ∘ String.data) = id := funext fun e => rfl
    rw [hcomp, List.map_id]
    rfl
  show pyJoinWith "\n"
      (cleanLoop (pySplitlines ("# Table of Contents\n" ++ generate_toc body ++ "\n" ++ body))
        false) = _
  rw [hsplit]
  rw [show ("# Table of Contents" :: entries ++ pySplitlines body : List String)
      = "# Table of Contents" :: (entries ++ pySplitlines body) from rfl]
  rw [cleanLoop_cons_false]
  rw [show isTocHeadingLine "# Table of Contents" = true from by decide]
  rw [if_pos rfl]
  rw [cleanLoop_toc_block entries _ hbul]
  rcases hbody : pySplitlines body with _ | ⟨b1, bs⟩
  · rfl
  · rw [hbody] at hFirst
    have hf : (!(pyStartsWith b1 "*") && !(pyStartsWith b1 "  *")) = true := hFirst
    simp only [Bool.and_eq_true, Bool.not_eq_true'] at hf
    rw [cleanLoop_exit b1 bs hf.1 hf.2]
    rw [cleanLoop_keep (b1 :: bs) (fun l hl => hKeep l (by rw [hbody]; exact hl))]

/-- C1, as stated, is false for a document with a heading of level 3 or
deeper: the generated TOC entry for `"### Deep"` is indented by four
spaces, which the removal pass's bullet pattern (`*` or two spaces then
`*`) does not match, so the pass removes only the added heading and leaves
the generated TOC line in the body. -/
theorem claimC1_counterexample :
    clean_existing_toc_and_wip_section
        ("# Table of Contents\n" ++ generate_toc "### Deep" ++ "\n" ++ "### Deep")
      = "    * [Deep](#deep)\n### Deep" ∧
    clean_existing_toc_and_wip_section
        ("# Table of Contents\n" ++ generate_toc "### Deep" ++ "\n" ++ "### Deep")
      ≠ "### Deep" := by
  constructor
  · decide
  · intro h
    rw [show clean_existing_toc_and_wip_section
        ("# Table of Contents\n" ++ generate_toc "### Deep" ++ "\n" ++ "### Deep")
      = "    * [Deep](#deep)\n### Deep" from by decide] at h
    exact absurd h (by decide)

/-- Witness for the amended C1 at a concrete document with headings of
levels 1 and 2. -/
theorem claimC1_amended_idempotence_witness :
    clean_existing_toc_and_wip_section
        ("# Table of Contents\n" ++ generate_toc "# A\n## B\nhello"
          ++ "\n" ++ "# A\n## B\nhello")
      = pyJoinWith "\n" (pySplitlines "# A\n## B\nhello") :=
  claimC1_amended_idempotence "# A\n## B\nhello" (by decide) (by decide) (by decide)
    (by decide)
